import Mathlib

/-!
Shallow embedding of the QueueCTL job queue engine.

The SQLite-backed job store of `src/storage.py` is modelled as a list of
job records kept in rowid (insertion) order; the `AUTOINCREMENT` primary
key is the `nextId` counter.  Timestamps (`created_at`, `updated_at`,
produced by `iso_now()`, and the unix-seconds values compared by the
claim query) are modelled as integers: ISO-8601 strings of the same clock
compare lexicographically in the same order as the instants they denote,
and within one storage call the model uses a single logical `now`.
Python integers are unbounded, so `attempts`, `max_retries` and
`available_at` are `Int`.  The worker loop of `src/worker.py` is embedded
as `resolveJob`, the exact post-execution write-back performed by
`worker_loop` for an execution result `(rc, output)`.  `backoff_base` is
the configured value `float(storage.get_config("backoff_base", "2"))`;
the model takes it as a natural number (the seeded default is the integer
string `"2"`), for which `int(math.pow(base, a))` is exactly `base ^ a`.
-/

set_option maxRecDepth 8192

namespace QueueCTL

/-- Job states occurring in the program: `'pending'`, `'processing'`,
`'completed'`, `'failed'`, `'dead'` (the only state strings ever written
by `src/storage.py` and `src/worker.py`). -/
inductive JState where
  | pending
  | processing
  | completed
  | failed
  | dead
  deriving DecidableEq, BEq, Repr

/-- One row of the `jobs` table (schema in `Storage.init_schema`). -/
structure Job where
  id : Nat
  externalId : Option String
  command : String
  state : JState
  attempts : Int
  maxRetries : Int
  createdAt : Int
  updatedAt : Int
  availableAt : Int
  lastError : Option String
  workerPid : Option Int
  deriving DecidableEq, Repr

/-- The store: the `jobs` table in rowid order, the next `AUTOINCREMENT`
id, and the seeded `default_max_retries` config value (default `"3"`). -/
structure Store where
  jobs : List Job
  nextId : Nat
  defaultMaxRetries : Int
  deriving DecidableEq, Repr

/-- The fresh store right after `init_schema`. -/
def initStore : Store := { jobs := [], nextId := 1, defaultMaxRetries := 3 }

/-- The loosely-typed submission dictionary accepted by `Storage.add_job`:
`none` models an absent key. -/
structure JobSpec where
  idField : Option String
  externalIdField : Option String
  command : Option String
  attempts : Option Int
  maxRetries : Option Int
  availableAt : Option Int
  deriving DecidableEq, Repr

/-- Python's `a or b` on two optional strings, as in
`job.get("id") or job.get("external_id")`: the first operand wins
unless it is falsy (absent or the empty string). -/
def pyOr (a b : Option String) : Option String :=
  match a with
  | some s => if s = "" then b else some s
  | none => b

/-- Errors raised by `add_job`: `ValueError` for a missing/empty command,
`sqlite3.IntegrityError` for a duplicate `external_id`. -/
inductive AddError where
  | invalidJob
  | duplicateExternalId
  deriving DecidableEq, Repr

/-- `KeyError("dead job not found")` raised by `retry_dead_job`. -/
inductive RetryError where
  | notFound
  deriving DecidableEq, Repr

instance {e a : Type} [DecidableEq e] [DecidableEq a] :
    DecidableEq (Except e a) := fun x y =>
  match x, y with
  | Except.ok u, Except.ok v =>
    if h : u = v then isTrue (by rw [h]) else isFalse (by intro hc; cases hc; exact h rfl)
  | Except.error u, Except.error v =>
    if h : u = v then isTrue (by rw [h]) else isFalse (by intro hc; cases hc; exact h rfl)
  | Except.ok _, Except.error _ => isFalse (by intro hc; cases hc)
  | Except.error _, Except.ok _ => isFalse (by intro hc; cases hc)

/-- Does some row already carry this `external_id`?  (The `UNIQUE`
constraint on the column; SQL `NULL`s never collide.) -/
def hasExternalId (s : Store) (e : String) : Bool :=
  s.jobs.any (fun j => j.externalId == some e)

/-- The row inserted by `add_job` after defaulting. -/
def mkNewJob (s : Store) (externalId : Option String) (cmd : String)
    (attempts maxRetries availableAt now : Int) : Job :=
  { id := s.nextId, externalId := externalId, command := cmd,
    state := JState.pending, attempts := attempts, maxRetries := maxRetries,
    createdAt := now, updatedAt := now, availableAt := availableAt,
    lastError := none, workerPid := none }

/-- `Storage.add_job`: reject a falsy `command`; combine `id` /
`external_id` with Python `or`; default `attempts` to 0, `max_retries`
from config, `available_at` to 0; reject a colliding non-null
`external_id` (the `INSERT` hits the `UNIQUE` constraint); otherwise
append the new `pending` row and return its id. -/
def add_job (s : Store) (spec : JobSpec) (now : Int) :
    Except AddError (Store × Nat) :=
  match spec.command with
  | none => Except.error AddError.invalidJob
  | some cmd =>
    if cmd = "" then Except.error AddError.invalidJob
    else
      let externalId := pyOr spec.idField spec.externalIdField
      let attempts := spec.attempts.getD 0
      let maxRetries := spec.maxRetries.getD s.defaultMaxRetries
      let availableAt := spec.availableAt.getD 0
      let dup := match externalId with
        | some e => hasExternalId s e
        | none => false
      if dup then Except.error AddError.duplicateExternalId
      else
        Except.ok
          ({ s with
              jobs := s.jobs ++
                [mkNewJob s externalId cmd attempts maxRetries availableAt now],
              nextId := s.nextId + 1 },
            s.nextId)

/-- The `WHERE state = 'pending' AND available_at <= ?` filter of the
claim query. -/
def eligible (now : Int) (j : Job) : Bool :=
  j.state == JState.pending && decide (j.availableAt ≤ now)

/-- `ORDER BY created_at ASC LIMIT 1` over the filtered rows: the first
row (in rowid order) attaining the minimal `created_at`, i.e. a stable
minimum over the table scan. -/
def selectOldest (now : Int) : List Job → Option Job
  | [] => none
  | j :: rest =>
    match selectOldest now rest with
    | none => if eligible now j then some j else none
    | some b =>
      if eligible now j && decide (j.createdAt ≤ b.createdAt) then some j
      else some b

/-- The `UPDATE jobs SET state='processing', worker_pid=?, updated_at=?`
applied to the selected row. -/
def claimUpdate (pid : Int) (now : Int) (j : Job) : Job :=
  { j with state := JState.processing, workerPid := some pid, updatedAt := now }

/-- `Storage.claim_next_job`: select the oldest eligible pending row;
if none, the transaction commits as a no-op and returns `none`;
otherwise mark it processing/owned and re-select it by id. -/
def claim_next_job (s : Store) (workerPid : Int) (now : Int) :
    Store × Option Job :=
  match selectOldest now s.jobs with
  | none => (s, none)
  | some row =>
    let s2 : Store :=
      { s with
          jobs := s.jobs.map (fun x =>
            if x.id = row.id then claimUpdate workerPid now x else x) }
    (s2, s2.jobs.find? (fun x => x.id == row.id))

/-- `Storage.update_job_result`: unconditional `UPDATE ... WHERE id = ?`
of state, attempts, last_error, updated_at, available_at, always setting
`worker_pid = NULL`; a missing id matches no row. -/
def update_job_result (s : Store) (jobId : Nat) (state : JState)
    (attempts : Int) (lastError : Option String) (now : Int)
    (availableAt : Int) : Store :=
  { s with
      jobs := s.jobs.map (fun j =>
        if j.id = jobId then
          { j with state := state, attempts := attempts,
                   lastError := lastError, updatedAt := now,
                   availableAt := availableAt, workerPid := none }
        else j) }

/-- `Storage.get_job_attempts`: the `attempts` of the row with this id,
or 0 when no row matches. -/
def get_job_attempts (s : Store) (jobId : Nat) : Int :=
  match s.jobs.find? (fun j => j.id == jobId) with
  | some j => j.attempts
  | none => 0

/-- `Storage.move_to_dead`: `update_job_result` to `dead`, re-reading the
currently stored attempts, with `available_at = 0`. -/
def move_to_dead (s : Store) (jobId : Nat) (lastError : Option String)
    (now : Int) : Store :=
  update_job_result s jobId JState.dead (get_job_attempts s jobId) lastError now 0

/-- The `UPDATE jobs SET state='pending', attempts=0, updated_at=?,
available_at=0 WHERE id=?` of `retry_dead_job` (note: `worker_pid` is
not touched). -/
def retryUpdate (now : Int) (j : Job) : Job :=
  { j with state := JState.pending, attempts := 0, updatedAt := now,
           availableAt := 0 }

/-- `Storage.retry_dead_job`: `KeyError` unless some row has this id and
state `'dead'`; otherwise reset that id to pending with zero attempts. -/
def retry_dead_job (s : Store) (jobId : Nat) (now : Int) :
    Except RetryError Store :=
  match s.jobs.find? (fun j => j.id == jobId && j.state == JState.dead) with
  | none => Except.error RetryError.notFound
  | some _ =>
    Except.ok
      { s with
          jobs := s.jobs.map (fun j =>
            if j.id = jobId then retryUpdate now j else j) }

/-- Outcome of `run_command`: the process return code and the captured
combined output (a timeout or spawn error is `rc = -1`). -/
structure ExecResult where
  rc : Int
  output : String
  deriving DecidableEq, Repr

/-- `delay = int(math.pow(backoff_base, attempts)); if delay > 3600:
delay = 3600` for an integral base, where `math.pow` is exact. -/
def backoffDelay (base : Nat) (attempts : Nat) : Nat :=
  let delay := base ^ attempts
  if delay > 3600 then 3600 else delay

/-- Python character slicing `s[:400]`, at the character-list level. -/
def truncate400 (s : String) : String := String.mk (s.data.take 400)

/-- `f"rc={rc} out={(output or '')[:400]}"`. -/
def lastErrStr (rc : Int) (output : String) : String :=
  "rc=" ++ toString rc ++ " out=" ++ truncate400 output

/-- The write-back of `worker_loop` after executing claimed row `j`
(`src/worker.py` lines 55-71): `rc = 0` completes the job with attempts
unchanged and error cleared; otherwise the local attempt count is
incremented, backoff computed, and the job either moved to the DLQ
(when the incremented count exceeds `max_retries`) or marked failed
with `available_at = now + delay`. -/
def resolveJob (s : Store) (backoffBase : Nat) (j : Job) (res : ExecResult)
    (now : Int) : Store :=
  if res.rc = 0 then
    update_job_result s j.id JState.completed j.attempts none now 0
  else
    let attempts := j.attempts + 1
    let delay := backoffDelay backoffBase attempts.toNat
    let avail := now + (delay : Int)
    let lastErr := lastErrStr res.rc res.output
    if attempts > j.maxRetries then
      move_to_dead s j.id (some lastErr) now
    else
      update_job_result s j.id JState.failed attempts (some lastErr) now avail

/-- One step of the store under its public operations.  `P` constrains
the submissions fed to `add_job` and `Q` the target states fed to
`update_job_result` (instantiate both with trivially true predicates for
the unrestricted relation).  The `resolve` step is the worker loop's
write-back, taken on the row it holds (current state `processing`). -/
inductive StoreStep (P : JobSpec → Prop) (Q : JState → Prop) :
    Store → Store → Prop where
  | add : ∀ s spec now s2 i, P spec → add_job s spec now = Except.ok (s2, i) →
      StoreStep P Q s s2
  | claim : ∀ s pid now, StoreStep P Q s (claim_next_job s pid now).1
  | upd : ∀ s jobId st a err now av, Q st →
      StoreStep P Q s (update_job_result s jobId st a err now av)
  | dead : ∀ s jobId err now, StoreStep P Q s (move_to_dead s jobId err now)
  | retry : ∀ s jobId now s2, retry_dead_job s jobId now = Except.ok s2 →
      StoreStep P Q s s2
  | resolve : ∀ s base j res now,
      s.jobs.find? (fun k => k.id == j.id) = some j →
      j.state = JState.processing →
      StoreStep P Q s (resolveJob s base j res now)

/-- Well-formedness the real table enjoys: rowids strictly increase along
the scan and stay below the `AUTOINCREMENT` counter. -/
def WF (s : Store) : Prop :=
  s.jobs.Pairwise (fun a b => a.id < b.id) ∧ ∀ j ∈ s.jobs, j.id < s.nextId

/-- The owner/state invariant of the spec: a row has a non-null
`worker_pid` exactly when its state is `processing`. -/
def OwnerInv (s : Store) : Prop :=
  ∀ j ∈ s.jobs, (j.workerPid ≠ none ↔ j.state = JState.processing)

end QueueCTL

namespace QueueCTL

/-! ### Concrete fixtures (Scenario A of the spec, and variants) -/

/-- Scenario A submission: `{command: "exit 1", max_retries: 0}`. -/
def specA : JobSpec :=
  { idField := none, externalIdField := none, command := some "exit 1",
    attempts := none, maxRetries := some 0, availableAt := none }

/-- The row Scenario A's submission inserts. -/
def jobA1 : Job :=
  { id := 1, externalId := none, command := "exit 1", state := JState.pending,
    attempts := 0, maxRetries := 0, createdAt := 100, updatedAt := 100,
    availableAt := 0, lastError := none, workerPid := none }

def storeA1 : Store := { jobs := [jobA1], nextId := 2, defaultMaxRetries := 3 }

/-- Scenario A's row after the claim by worker pid 7 at time 101. -/
def jobA2 : Job :=
  { jobA1 with state := JState.processing, workerPid := some 7, updatedAt := 101 }

def storeA2 : Store := { storeA1 with jobs := [jobA2] }

/-- Scenario A's store after the worker resolves exit code 1 at time 102. -/
def storeA3 : Store := resolveJob storeA2 2 jobA2 ⟨1, ""⟩ 102

/-- Scenario A's final row as the code actually leaves it. -/
def jobA3 : Job :=
  { jobA2 with state := JState.dead, lastError := some "rc=1 out=",
               updatedAt := 102, availableAt := 0, workerPid := none }

/-- A dead job with one recorded attempt, for the retry fixtures. -/
def jobD : Job :=
  { jobA1 with state := JState.dead, attempts := 1,
               lastError := some "rc=1 out=" }

def storeD : Store := { jobs := [jobD], nextId := 2, defaultMaxRetries := 3 }

/-- A store already holding external id `"x"`. -/
def jobX : Job := { jobA1 with externalId := some "x" }

def storeX : Store := { jobs := [jobX], nextId := 2, defaultMaxRetries := 3 }

/-- A submission colliding on external id `"x"`. -/
def specX : JobSpec :=
  { idField := none, externalIdField := some "x", command := some "true",
    attempts := none, maxRetries := none, availableAt := none }

/-- A submission carrying a negative caller-supplied attempts value. -/
def specNeg : JobSpec :=
  { idField := none, externalIdField := none, command := some "true",
    attempts := some (-1), maxRetries := none, availableAt := none }

/-- The row `add_job` inserts for `specNeg`. -/
def jobNeg : Job :=
  { id := 1, externalId := none, command := "true", state := JState.pending,
    attempts := -1, maxRetries := 3, createdAt := 100, updatedAt := 100,
    availableAt := 0, lastError := none, workerPid := none }

def storeNeg : Store := { jobs := [jobNeg], nextId := 2, defaultMaxRetries := 3 }

/-- No restriction on submissions or on `update_job_result` targets: the
store's raw public interface. -/
def RawStep : Store → Store → Prop := StoreStep (fun _ => True) (fun _ => True)

/-- Target-state restriction matching every `update_job_result` call site
in the repository (`'completed'`, `'failed'`, `'dead'` — never
`'processing'`). -/
def NoProcessingTarget (st : JState) : Prop := st ≠ JState.processing

/-- Submissions whose caller-supplied `attempts` (default 0) is
non-negative, as for every in-repo caller. -/
def NonNegSubmission (sp : JobSpec) : Prop := 0 ≤ sp.attempts.getD 0

/-- Disables the raw `update_job_result` step: the engine mutates rows
only through the worker write-back, `move_to_dead` and the dead retry. -/
def NoRawUpdate : JState → Prop := fun _ => False

/-- The store obtained by following Scenario A's add and claim with a raw
`update_job_result` whose target state is `'processing'`. -/
def storeP : Store := update_job_result storeA2 1 JState.processing 0 none 102 0

/-- `storeD` after retrying its dead job at time 60. -/
def storeD2 : Store :=
  { storeD with jobs := storeD.jobs.map (fun j =>
      if j.id = 1 then retryUpdate 60 j else j) }

/-! ### Helper lemmas about the list-level operations -/

theorem find?_map_update (l : List Job) (i : Nat) (g : Job → Job)
    (hg : ∀ x, (g x).id = x.id) :
    (l.map (fun x => if x.id = i then g x else x)).find? (fun k => k.id == i) =
      (l.find? (fun k => k.id == i)).map g := by
  induction l with
  | nil => rfl
  | cons x xs ih =>
    by_cases h : x.id = i
    · simp [List.find?_cons, h, hg]
    · simp [List.find?_cons, h, ih]

theorem find?_id_of_mem (l : List Job)
    (hp : l.Pairwise (fun a b => a.id < b.id)) (k : Job) (hk : k ∈ l) :
    l.find? (fun x => x.id == k.id) = some k := by
  induction l with
  | nil => cases hk
  | cons x xs ih =>
    rcases List.mem_cons.mp hk with h | h
    · subst h; simp [List.find?_cons]
    · have hx : x.id < k.id := (List.pairwise_cons.mp hp).1 k h
      have hne : (x.id == k.id) = false := by
        simp only [beq_eq_false_iff_ne]; omega
      simp [List.find?_cons, hne, ih (List.pairwise_cons.mp hp).2 h]

theorem map_update_id_of_not_mem (l : List Job) (i : Nat) (g : Job → Job)
    (h : ∀ j ∈ l, j.id ≠ i) :
    l.map (fun x => if x.id = i then g x else x) = l := by
  induction l with
  | nil => rfl
  | cons x xs ih =>
    have hx : x.id ≠ i := h x (List.mem_cons_self x xs)
    simp [hx, ih (fun j hj => h j (List.mem_cons_of_mem x hj))]

theorem selectOldest_mem_eligible (now : Int) :
    ∀ (l : List Job) (b : Job), selectOldest now l = some b →
      b ∈ l ∧ eligible now b = true := by
  intro l
  induction l with
  | nil => intro b h; simp [selectOldest] at h
  | cons j rest ih =>
    intro b h
    simp only [selectOldest] at h
    cases hr : selectOldest now rest with
    | none =>
      rw [hr] at h
      by_cases he : eligible now j
      · simp [he] at h; subst h; exact ⟨List.mem_cons_self j rest, he⟩
      · simp [he] at h
    | some c =>
      rw [hr] at h
      by_cases hc : (eligible now j && decide (j.createdAt ≤ c.createdAt)) = true
      · simp [hc] at h; subst h
        rw [Bool.and_eq_true] at hc
        exact ⟨List.mem_cons_self j rest, hc.1⟩
      · simp [hc] at h; subst h
        obtain ⟨hm, he⟩ := ih c hr
        exact ⟨List.mem_cons_of_mem j hm, he⟩

theorem selectOldest_eq_none (now : Int) :
    ∀ l : List Job, selectOldest now l = none ↔ ∀ j ∈ l, eligible now j = false := by
  intro l
  induction l with
  | nil => simp [selectOldest]
  | cons j rest ih =>
    simp only [selectOldest]
    cases hr : selectOldest now rest with
    | none =>
      constructor
      · intro h
        by_cases he : eligible now j
        · simp [he] at h
        · intro k hk
          rcases List.mem_cons.mp hk with h1 | h1
          · subst h1; simpa using he
          · exact (ih.mp hr) k h1
      · intro h
        have : eligible now j = false := h j (List.mem_cons_self j rest)
        simp [this]
    | some c =>
      constructor
      · intro h
        by_cases hc : (eligible now j && decide (j.createdAt ≤ c.createdAt)) = true
        · simp [hc] at h
        · simp [hc] at h
      · intro h
        have hce : eligible now c = false :=
          h c (List.mem_cons_of_mem j (selectOldest_mem_eligible now rest c hr).1)
        have := (selectOldest_mem_eligible now rest c hr).2
        rw [this] at hce; cases hce

theorem selectOldest_min (now : Int) :
    ∀ (l : List Job) (b : Job), selectOldest now l = some b →
      ∀ j ∈ l, eligible now j = true → b.createdAt ≤ j.createdAt := by
  intro l
  induction l with
  | nil => intro b h; simp [selectOldest] at h
  | cons j rest ih =>
    intro b h k hk hke
    simp only [selectOldest] at h
    cases hr : selectOldest now rest with
    | none =>
      rw [hr] at h
      by_cases he : eligible now j
      · simp [he] at h; subst h
        rcases List.mem_cons.mp hk with h1 | h1
        · subst h1; exact le_refl _
        · rw [(selectOldest_eq_none now rest).mp hr k h1] at hke; cases hke
      · simp [he] at h
    | some c =>
      rw [hr] at h
      by_cases hc : (eligible now j && decide (j.createdAt ≤ c.createdAt)) = true
      · simp [hc] at h; subst h
        rw [Bool.and_eq_true] at hc
        have hle' := of_decide_eq_true hc.2
        rcases List.mem_cons.mp hk with h1 | h1
        · subst h1; exact le_refl _
        · exact le_trans hle' (ih c hr k h1 hke)
      · simp only [hc, if_false] at h
        cases h
        rcases List.mem_cons.mp hk with h1 | h1
        · subst h1
          rw [Bool.and_eq_true] at hc
          rcases not_and_or.mp hc with h2 | h2
          · exact absurd hke h2
          · have h3 : ¬ k.createdAt ≤ b.createdAt := fun hx =>
              h2 (decide_eq_true hx)
            omega
        · exact ih b hr k h1 hke

theorem selectOldest_tie (now : Int) :
    ∀ (l : List Job), l.Pairwise (fun a b => a.id < b.id) →
      ∀ (b : Job), selectOldest now l = some b →
      ∀ j ∈ l, eligible now j = true → b.createdAt = j.createdAt → b.id ≤ j.id := by
  intro l
  induction l with
  | nil => intro _ b h; simp [selectOldest] at h
  | cons j rest ih =>
    intro hp b h k hk hke hceq
    simp only [selectOldest] at h
    cases hr : selectOldest now rest with
    | none =>
      rw [hr] at h
      by_cases he : eligible now j
      · simp [he] at h; subst h
        rcases List.mem_cons.mp hk with h1 | h1
        · subst h1; exact le_refl _
        · rw [(selectOldest_eq_none now rest).mp hr k h1] at hke; cases hke
      · simp [he] at h
    | some c =>
      rw [hr] at h
      by_cases hc : (eligible now j && decide (j.createdAt ≤ c.createdAt)) = true
      · simp [hc] at h; subst h
        rcases List.mem_cons.mp hk with h1 | h1
        · subst h1; exact le_refl _
        · exact le_of_lt ((List.pairwise_cons.mp hp).1 k h1)
      · simp only [hc, if_false] at h
        cases h
        rcases List.mem_cons.mp hk with h1 | h1
        · subst h1
          rw [Bool.and_eq_true] at hc
          rcases not_and_or.mp hc with h2 | h2
          · exact absurd hke h2
          · have h3 : ¬ k.createdAt ≤ b.createdAt := fun hx =>
              h2 (decide_eq_true hx)
            omega
        · exact ih (List.pairwise_cons.mp hp).2 b hr k h1 hke hceq

end QueueCTL

namespace QueueCTL

/-! ### Further bridging lemmas -/

theorem jstate_beq_iff (a b : JState) : (a == b) = true ↔ a = b := by
  cases a <;> cases b <;> decide

theorem eligible_iff (now : Int) (j : Job) :
    eligible now j = true ↔ j.state = JState.pending ∧ j.availableAt ≤ now := by
  rw [eligible, Bool.and_eq_true, jstate_beq_iff, decide_eq_true_eq]

theorem mem_update_cases (l : List Job) (i : Nat) (g : Job → Job) (j2 : Job)
    (h : j2 ∈ l.map (fun x => if x.id = i then g x else x)) :
    ∃ x ∈ l, (x.id = i ∧ j2 = g x) ∨ (x.id ≠ i ∧ j2 = x) := by
  obtain ⟨x, hx, heq⟩ := List.mem_map.mp h
  by_cases hxi : x.id = i
  · rw [if_pos hxi] at heq
    exact ⟨x, hx, Or.inl ⟨hxi, heq.symm⟩⟩
  · rw [if_neg hxi] at heq
    exact ⟨x, hx, Or.inr ⟨hxi, heq.symm⟩⟩

theorem mem_id_unique (l : List Job)
    (hp : l.Pairwise (fun a b => a.id < b.id)) (a b : Job)
    (ha : a ∈ l) (hb : b ∈ l) (hid : a.id = b.id) : a = b := by
  induction l with
  | nil => cases ha
  | cons x xs ih =>
    rcases List.mem_cons.mp ha with h1 | h1 <;> rcases List.mem_cons.mp hb with h2 | h2
    · rw [h1, h2]
    · subst h1
      have hlt := (List.pairwise_cons.mp hp).1 b h2
      exact absurd hid (by omega)
    · subst h2
      have hlt := (List.pairwise_cons.mp hp).1 a h1
      exact absurd hid (by omega)
    · exact ih (List.pairwise_cons.mp hp).2 h1 h2

theorem get_job_attempts_eq (s : Store) (x : Job)
    (hp : s.jobs.Pairwise (fun a b => a.id < b.id)) (hx : x ∈ s.jobs) :
    get_job_attempts s x.id = x.attempts := by
  unfold get_job_attempts
  rw [find?_id_of_mem s.jobs hp x hx]

theorem get_job_attempts_nonneg (s : Store) (jobId : Nat)
    (hinv : ∀ j ∈ s.jobs, 0 ≤ j.attempts) : 0 ≤ get_job_attempts s jobId := by
  unfold get_job_attempts
  split
  · exact hinv _ (List.mem_of_find?_eq_some (by assumption))
  · exact le_refl 0

theorem add_job_ok_shape (s : Store) (spec : JobSpec) (now : Int)
    (s2 : Store) (i : Nat) (h : add_job s spec now = Except.ok (s2, i)) :
    ∃ cmd, spec.command = some cmd ∧
      s2 = { s with
        jobs := s.jobs ++
          [mkNewJob s (pyOr spec.idField spec.externalIdField) cmd
            (spec.attempts.getD 0) (spec.maxRetries.getD s.defaultMaxRetries)
            (spec.availableAt.getD 0) now],
        nextId := s.nextId + 1 } ∧ i = s.nextId := by
  unfold add_job at h
  split at h
  · cases h
  · next cmd hcmd =>
    by_cases hne : cmd = ""
    · rw [if_pos hne] at h; cases h
    · rw [if_neg hne] at h
      simp only [] at h
      refine ⟨cmd, hcmd, ?_⟩
      split at h
      · cases h
      · injection h with h2
        injection h2 with h3 h4
        exact ⟨h3.symm, h4.symm⟩

theorem retry_dead_job_ok_shape (s : Store) (jobId : Nat) (now : Int)
    (s2 : Store) (h : retry_dead_job s jobId now = Except.ok s2) :
    (∃ r ∈ s.jobs, r.id = jobId ∧ r.state = JState.dead) ∧
    s2 = { s with jobs := s.jobs.map (fun j =>
      if j.id = jobId then retryUpdate now j else j) } := by
  unfold retry_dead_job at h
  cases hf : s.jobs.find? (fun j => j.id == jobId && j.state == JState.dead) with
  | none => rw [hf] at h; cases h
  | some r =>
    rw [hf] at h
    have hr := List.find?_some hf
    rw [Bool.and_eq_true] at hr
    refine ⟨⟨r, List.mem_of_find?_eq_some hf, by simpa using hr.1,
      (jstate_beq_iff _ _).mp hr.2⟩, ?_⟩
    injection h with h2
    exact h2.symm


end QueueCTL

namespace QueueCTL

/-! ### Claim theorems -/

/-- Claim C5: for every attempt count `a ≥ 1` and configured backoff
base, the retry delay computed after a failure equals
`min(base ^ a, 3600)` seconds, is monotonically non-decreasing in `a`,
and is capped at 3600; and the failed job's new `available_at` is
`now + delay`. -/
theorem backoff_delay_spec (base : Nat) :
    (∀ a : Nat, 1 ≤ a → backoffDelay base a = min (base ^ a) 3600) ∧
    (∀ a : Nat, backoffDelay base a ≤ 3600) ∧
    (∀ a a2 : Nat, 1 ≤ a → a ≤ a2 →
      backoffDelay base a ≤ backoffDelay base a2) ∧
    (∀ (s : Store) (j : Job) (res : ExecResult) (now : Int),
      s.jobs.find? (fun k => k.id == j.id) = some j →
      res.rc ≠ 0 → j.attempts + 1 ≤ j.maxRetries →
      (resolveJob s base j res now).jobs.find? (fun k => k.id == j.id) =
        some { j with state := JState.failed, attempts := j.attempts + 1,
                      lastError := some (lastErrStr res.rc res.output),
                      updatedAt := now,
                      availableAt :=
                        now + (backoffDelay base (j.attempts + 1).toNat : Int),
                      workerPid := none }) := by
  refine ⟨?_, ?_, ?_, ?_⟩
  · intro a _
    simp only [backoffDelay]
    split <;> omega
  · intro a
    simp only [backoffDelay]
    split <;> omega
  · intro a a2 ha haa
    simp only [backoffDelay]
    rcases Nat.eq_zero_or_pos base with hb | hb
    · subst hb
      rw [Nat.zero_pow (by omega), Nat.zero_pow (by omega)]
    · have hpow : base ^ a ≤ base ^ a2 := Nat.pow_le_pow_right hb haa
      split <;> split <;> omega
  · intro s j res now hfind hrc hle
    have hgt : ¬ j.attempts + 1 > j.maxRetries := by omega
    simp only [resolveJob, if_neg hrc, if_neg hgt]
    unfold update_job_result
    rw [find?_map_update s.jobs j.id
      (fun x => { x with state := JState.failed, attempts := j.attempts + 1,
                         lastError := some (lastErrStr res.rc res.output),
                         updatedAt := now,
                         availableAt :=
                           now +
                             (backoffDelay base (j.attempts + 1).toNat : Int),
                         workerPid := none })
      (fun x => rfl), hfind]
    rfl

/-- Witness for C5 at base 2, attempts 3, and a concrete failed job. -/
theorem backoff_delay_spec_witness :
    backoffDelay 2 3 = min (2 ^ 3) 3600 ∧
    backoffDelay 2 3 ≤ backoffDelay 2 5 := by
  constructor
  · exact (backoff_delay_spec 2).1 3 (by decide)
  · exact (backoff_delay_spec 2).2.2.1 3 5 (by decide) (by decide)

/-- Claim C7: when a claimed job's command exits with code 0, the job is
updated to `completed` with attempts unchanged (the record update below
keeps `j.attempts`), `last_error` cleared to null, `available_at = 0`,
and owner cleared. -/
theorem worker_success_spec (s : Store) (base : Nat) (j : Job)
    (res : ExecResult) (now : Int)
    (hfind : s.jobs.find? (fun k => k.id == j.id) = some j)
    (hrc : res.rc = 0) :
    (resolveJob s base j res now).jobs.find? (fun k => k.id == j.id) =
      some { j with state := JState.completed, lastError := none,
                    updatedAt := now, availableAt := 0, workerPid := none } := by
  simp only [resolveJob, if_pos hrc]
  unfold update_job_result
  rw [find?_map_update s.jobs j.id
    (fun x => { x with state := JState.completed, attempts := j.attempts,
                       lastError := none, updatedAt := now, availableAt := 0,
                       workerPid := none })
    (fun x => rfl), hfind]
  rfl

/-- Witness for C7: Scenario B flavour, exit code 0 on the claimed row. -/
theorem worker_success_spec_witness :
    (resolveJob storeA2 2 jobA2 ⟨0, "ok"⟩ 102).jobs.find?
        (fun k => k.id == jobA2.id) =
      some { jobA2 with state := JState.completed, lastError := none,
                        updatedAt := 102, availableAt := 0,
                        workerPid := none } :=
  worker_success_spec storeA2 2 jobA2 ⟨0, "ok"⟩ 102 (by decide) rfl

/-- Claim C10: `update_job_result` and `move_to_dead` on an id that
matches no row are silent no-ops (no error, no row created or changed),
and `get_job_attempts` reads a missing id as 0. -/
theorem missing_id_noop (s : Store) (jobId : Nat) (st : JState) (a : Int)
    (err : Option String) (now av : Int)
    (h : ∀ j ∈ s.jobs, j.id ≠ jobId) :
    update_job_result s jobId st a err now av = s ∧
    move_to_dead s jobId err now = s ∧
    get_job_attempts s jobId = 0 := by
  have h1 : update_job_result s jobId st a err now av = s := by
    unfold update_job_result
    rw [map_update_id_of_not_mem s.jobs jobId _ h]
  have h2 : get_job_attempts s jobId = 0 := by
    unfold get_job_attempts
    rw [List.find?_eq_none.mpr (fun x hx => by simpa using h x hx)]
  have h3 : move_to_dead s jobId err now = s := by
    unfold move_to_dead update_job_result
    rw [map_update_id_of_not_mem s.jobs jobId _ h]
  exact ⟨h1, h3, h2⟩

/-- Witness for C10 at a store whose only row has id 1, with id 99. -/
theorem missing_id_noop_witness :
    update_job_result storeA1 99 JState.dead 5 none 7 7 = storeA1 ∧
    move_to_dead storeA1 99 none 7 = storeA1 ∧
    get_job_attempts storeA1 99 = 0 :=
  missing_id_noop storeA1 99 JState.dead 5 none 7 7 (by decide)

/-- Claim C4: `retry_dead_job` on an id whose row is exactly `dead`
resets that row to `state=pending`, `attempts=0`, `available_at=0`;
for a missing id or a row in any non-dead state it fails with the
not-found error and performs no update. -/
theorem retry_dead_job_spec (s : Store) (jobId : Nat) (now : Int) :
    ((∃ j ∈ s.jobs, j.id = jobId ∧ j.state = JState.dead) →
      retry_dead_job s jobId now =
        Except.ok { s with jobs := s.jobs.map (fun j =>
          if j.id = jobId then retryUpdate now j else j) }) ∧
    ((∀ j ∈ s.jobs, ¬(j.id = jobId ∧ j.state = JState.dead)) →
      retry_dead_job s jobId now = Except.error RetryError.notFound) := by
  constructor
  · rintro ⟨j, hj, hid, hst⟩
    have hex : (s.jobs.find?
        (fun k => k.id == jobId && k.state == JState.dead)).isSome := by
      rw [List.find?_isSome]
      exact ⟨j, hj, by rw [Bool.and_eq_true, jstate_beq_iff]
                       exact ⟨by simpa using hid, hst⟩⟩
    obtain ⟨r, hr⟩ := Option.isSome_iff_exists.mp hex
    unfold retry_dead_job
    rw [hr]
  · intro h
    unfold retry_dead_job
    rw [List.find?_eq_none.mpr]
    intro k hk
    rw [Bool.not_eq_true, Bool.and_eq_false_iff]
    by_cases hkid : k.id = jobId
    · right
      rw [← Bool.not_eq_true, jstate_beq_iff]
      exact fun hkst => h k hk ⟨hkid, hkst⟩
    · left
      simpa using hkid

/-- Witness for C4: retrying the dead row of `storeD`. -/
theorem retry_dead_job_spec_witness :
    retry_dead_job storeD 1 50 =
      Except.ok { storeD with jobs := storeD.jobs.map (fun j =>
        if j.id = 1 then retryUpdate 50 j else j) } :=
  (retry_dead_job_spec storeD 1 50).1 ⟨jobD, by decide, rfl, rfl⟩

/-- Claim C6: `add_job` fails with the invalid-job error when the command
is absent or empty, fails with the duplicate error when the supplied
external id already exists (in both failure cases no row is inserted:
the store is not returned); otherwise it appends a `pending` row with
`attempts` 0 or caller-supplied, `max_retries` defaulted from config,
`available_at` defaulted to 0, and returns the new integer id. -/
theorem add_job_spec (s : Store) (spec : JobSpec) (now : Int) :
    ((spec.command = none ∨ spec.command = some "") →
      add_job s spec now = Except.error AddError.invalidJob) ∧
    (∀ cmd, spec.command = some cmd → cmd ≠ "" →
      ∀ e, pyOr spec.idField spec.externalIdField = some e →
        hasExternalId s e = true →
        add_job s spec now = Except.error AddError.duplicateExternalId) ∧
    (∀ cmd, spec.command = some cmd → cmd ≠ "" →
      (∀ e, pyOr spec.idField spec.externalIdField = some e →
        hasExternalId s e = false) →
      add_job s spec now =
        Except.ok
          ({ s with
              jobs := s.jobs ++
                [mkNewJob s (pyOr spec.idField spec.externalIdField) cmd
                  (spec.attempts.getD 0)
                  (spec.maxRetries.getD s.defaultMaxRetries)
                  (spec.availableAt.getD 0) now],
              nextId := s.nextId + 1 },
            s.nextId)) := by
  refine ⟨?_, ?_, ?_⟩
  · rintro (h | h) <;> simp [add_job, h]
  · intro cmd hcmd hne e he hdup
    simp [add_job, hcmd, hne, he, hdup]
  · intro cmd hcmd hne hdup
    cases hpy : pyOr spec.idField spec.externalIdField with
    | none => simp [add_job, hcmd, hne, hpy]
    | some e => simp [add_job, hcmd, hne, hpy, hdup e hpy]

/-- Witness for C6: Scenario C flavour, a second submission of external
id `"x"` is rejected as a duplicate. -/
theorem add_job_spec_witness :
    add_job storeX specX 200 = Except.error AddError.duplicateExternalId :=
  (add_job_spec storeX specX 200).2.1 "true" rfl (by decide) "x" rfl (by decide)

end QueueCTL

namespace QueueCTL

/-- `resolveJob` written out as a three-way case split (definitional). -/
theorem resolveJob_eq (s : Store) (base : Nat) (j : Job) (res : ExecResult)
    (now : Int) :
    resolveJob s base j res now =
      if res.rc = 0 then
        update_job_result s j.id JState.completed j.attempts none now 0
      else if j.attempts + 1 > j.maxRetries then
        move_to_dead s j.id (some (lastErrStr res.rc res.output)) now
      else
        update_job_result s j.id JState.failed (j.attempts + 1)
          (some (lastErrStr res.rc res.output)) now
          (now + (backoffDelay base (j.attempts + 1).toNat : Int)) := rfl

/-- Rows of an `update_job_result` result that are `pending` come from
rows that were already `pending`, whenever the written state is not
`pending`. -/
theorem update_job_result_pending_origin (s : Store) (jobId : Nat)
    (st : JState) (hst : st ≠ JState.pending) (a : Int) (err : Option String)
    (now av : Int) (j2 : Job)
    (h : j2 ∈ (update_job_result s jobId st a err now av).jobs)
    (hpend : j2.state = JState.pending) :
    ∃ k ∈ s.jobs, k.id = j2.id ∧ k.state = JState.pending := by
  unfold update_job_result at h
  obtain ⟨x, hx, hcase⟩ := mem_update_cases s.jobs jobId _ j2 h
  rcases hcase with ⟨hxi, hgx⟩ | ⟨hxi, hxx⟩
  · rw [hgx] at hpend
    exact absurd hpend hst
  · subst hxx
    exact ⟨j2, hx, rfl, hpend⟩

/-- Claim C2: the claim operation selects the single oldest job with
`state=pending` and `available_at ≤ now` (ties broken by insertion
order: `created_at`, then id); if no such job exists it leaves the store
unchanged and returns empty; otherwise it returns the selected row with
`state=processing`, `owner=caller`, `updated_at=now` and performs exactly
that update.  Jobs with `available_at` in the future are never returned
even if pending. -/
theorem claim_next_job_spec (s : Store) (pid now : Int)
    (hp : s.jobs.Pairwise (fun a b => a.id < b.id)) :
    ((claim_next_job s pid now).2 = none →
      (claim_next_job s pid now).1 = s ∧
      ∀ j ∈ s.jobs, ¬(j.state = JState.pending ∧ j.availableAt ≤ now)) ∧
    (∀ jr, (claim_next_job s pid now).2 = some jr →
      ∃ k, k ∈ s.jobs ∧ k.state = JState.pending ∧ k.availableAt ≤ now ∧
        (∀ k2 ∈ s.jobs, k2.state = JState.pending → k2.availableAt ≤ now →
          k.createdAt < k2.createdAt ∨
            (k.createdAt = k2.createdAt ∧ k.id ≤ k2.id)) ∧
        jr = claimUpdate pid now k ∧
        (claim_next_job s pid now).1 =
          { s with jobs := s.jobs.map (fun x =>
              if x.id = k.id then claimUpdate pid now x else x) }) := by
  cases hsel : selectOldest now s.jobs with
  | none =>
    have hc : claim_next_job s pid now = (s, none) := by
      unfold claim_next_job; rw [hsel]
    constructor
    · intro _
      refine ⟨by rw [hc], ?_⟩
      intro j hj hcon
      have hfalse := (selectOldest_eq_none now s.jobs).mp hsel j hj
      rw [(eligible_iff now j).mpr hcon] at hfalse
      exact Bool.noConfusion hfalse
    · intro jr hjr
      rw [hc] at hjr
      exact Option.noConfusion hjr
  | some row =>
    obtain ⟨hmem, helig⟩ := selectOldest_mem_eligible now s.jobs row hsel
    have hfind := find?_id_of_mem s.jobs hp row hmem
    have hc : claim_next_job s pid now =
        ({ s with jobs := s.jobs.map (fun x =>
            if x.id = row.id then claimUpdate pid now x else x) },
          some (claimUpdate pid now row)) := by
      unfold claim_next_job
      rw [hsel]
      show ({ s with jobs := s.jobs.map (fun (x : Job) =>
          if x.id = row.id then claimUpdate pid now x else x) },
        (s.jobs.map (fun (x : Job) =>
          if x.id = row.id then claimUpdate pid now x else x)).find?
            (fun (x : Job) => x.id == row.id)) = _
      rw [find?_map_update s.jobs row.id (claimUpdate pid now) (fun x => rfl),
        hfind]
      rfl
    constructor
    · intro hnone
      rw [hc] at hnone
      exact Option.noConfusion hnone
    · intro jr hjr
      rw [hc] at hjr
      refine ⟨row, hmem, ((eligible_iff now row).mp helig).1,
        ((eligible_iff now row).mp helig).2, ?_, ?_, ?_⟩
      · intro k2 hk2 hst hav
        have he2 : eligible now k2 = true := (eligible_iff now k2).mpr ⟨hst, hav⟩
        have hle := selectOldest_min now s.jobs row hsel k2 hk2 he2
        rcases lt_or_eq_of_le hle with hlt | heq
        · exact Or.inl hlt
        · exact Or.inr ⟨heq,
            selectOldest_tie now s.jobs hp row hsel k2 hk2 he2 heq⟩
      · exact (Option.some.inj hjr).symm
      · rw [hc]

/-- Witness for C2: claiming from the one-pending-job store. -/
theorem claim_next_job_spec_witness :
    ∃ k, k ∈ storeA1.jobs ∧ k.state = JState.pending ∧ k.availableAt ≤ 101 ∧
      (∀ k2 ∈ storeA1.jobs, k2.state = JState.pending → k2.availableAt ≤ 101 →
        k.createdAt < k2.createdAt ∨
          (k.createdAt = k2.createdAt ∧ k.id ≤ k2.id)) ∧
      claimUpdate 7 101 jobA1 = claimUpdate 7 101 k ∧
      (claim_next_job storeA1 7 101).1 =
        { storeA1 with jobs := storeA1.jobs.map (fun x =>
            if x.id = k.id then claimUpdate 7 101 x else x) } :=
  (claim_next_job_spec storeA1 7 101
      (List.pairwise_singleton _ _)).2 (claimUpdate 7 101 jobA1) (by decide)

/-- Claim C3: the claim protocol only ever selects (and transitions)
jobs whose state is `pending` — `failed` and `dead` rows are never
selected — and the worker's entire write-back path (`resolveJob`, which
writes `completed`, `failed`, or `dead`) never moves a job back to
`pending`: every pending row after a write-back was already pending
before it, so only the explicit dead-job retry re-enters the pool. -/
theorem failed_dead_never_claimed :
    (∀ (s : Store) (pid now : Int) (jr : Job),
      (claim_next_job s pid now).2 = some jr →
      ∃ k ∈ s.jobs, k.id = jr.id ∧ k.state = JState.pending) ∧
    (∀ (s : Store) (base : Nat) (j : Job) (res : ExecResult) (now : Int)
      (j2 : Job), j2 ∈ (resolveJob s base j res now).jobs →
      j2.state = JState.pending →
      ∃ k ∈ s.jobs, k.id = j2.id ∧ k.state = JState.pending) := by
  constructor
  · intro s pid now jr hjr
    cases hsel : selectOldest now s.jobs with
    | none =>
      unfold claim_next_job at hjr
      rw [hsel] at hjr
      exact Option.noConfusion hjr
    | some row =>
      obtain ⟨hmem, helig⟩ := selectOldest_mem_eligible now s.jobs row hsel
      unfold claim_next_job at hjr
      rw [hsel] at hjr
      have hjr2 : (s.jobs.map (fun x =>
          if x.id = row.id then claimUpdate pid now x else x)).find?
            (fun x => x.id == row.id) = some jr := hjr
      have hpred := List.find?_some hjr2
      have hid : jr.id = row.id := by simpa using hpred
      exact ⟨row, hmem, hid.symm, ((eligible_iff now row).mp helig).1⟩
  · intro s base j res now j2 hmem hpend
    rw [resolveJob_eq] at hmem
    by_cases hrc : res.rc = 0
    · rw [if_pos hrc] at hmem
      exact update_job_result_pending_origin s j.id JState.completed
        (by decide) j.attempts none now 0 j2 hmem hpend
    · rw [if_neg hrc] at hmem
      by_cases hgt : j.attempts + 1 > j.maxRetries
      · rw [if_pos hgt] at hmem
        unfold move_to_dead at hmem
        exact update_job_result_pending_origin s j.id JState.dead
          (by decide) (get_job_attempts s j.id)
          (some (lastErrStr res.rc res.output)) now 0 j2 hmem hpend
      · rw [if_neg hgt] at hmem
        exact update_job_result_pending_origin s j.id JState.failed
          (by decide) (j.attempts + 1)
          (some (lastErrStr res.rc res.output)) now
          (now + (backoffDelay base (j.attempts + 1).toNat : Int)) j2 hmem hpend

/-- Witness for C3: the claimed row of `storeA1` came from a pending row. -/
theorem failed_dead_never_claimed_witness :
    ∃ k ∈ storeA1.jobs, k.id = (claimUpdate 7 101 jobA1).id ∧
      k.state = JState.pending :=
  failed_dead_never_claimed.1 storeA1 7 101 (claimUpdate 7 101 jobA1)
    (by decide)

end QueueCTL

namespace QueueCTL

/-- Counterexample to claim C1: running Scenario A concretely
(`max_retries=0`, first execution exits with code 1), the final record is
`dead` with `owner=null` and `last_error` containing `"rc=1"` — but its
`attempts` is 0, not the incremented value 1: the worker increments only
a local variable, and `move_to_dead` re-reads the never-updated stored
attempts. -/
theorem scenarioA_attempts_cex :
    add_job initStore specA 100 = Except.ok (storeA1, 1) ∧
    claim_next_job storeA1 7 101 = (storeA2, some jobA2) ∧
    storeA3.jobs.find? (fun k => k.id == 1) = some jobA3 ∧
    jobA3.state = JState.dead ∧ jobA3.workerPid = none ∧
    jobA3.lastError = some "rc=1 out=" ∧
    jobA3.attempts = 0 ∧ ¬ jobA3.attempts = 1 :=
  ⟨by decide, by decide, by decide, rfl, rfl, rfl, rfl, by decide⟩

/-- Claim C1 (amended): when a worker executes a claimed job whose
command exits non-zero and the incremented local attempt count exceeds
`max_retries`, `move_to_dead` is invoked and the job's final record has
`state=dead`, `owner=null`, `last_error` of the form `"rc=... out=..."`
— and `attempts` equal to the job's *stored pre-increment* value
(`j.attempts` below), because the failure path never writes the
incremented count back before `move_to_dead` re-reads the row. -/
theorem worker_exhausted_to_dead (s : Store) (base : Nat) (j : Job)
    (res : ExecResult) (now : Int)
    (hfind : s.jobs.find? (fun k => k.id == j.id) = some j)
    (hrc : res.rc ≠ 0) (hmax : j.attempts + 1 > j.maxRetries) :
    (resolveJob s base j res now).jobs.find? (fun k => k.id == j.id) =
      some { j with state := JState.dead,
                    lastError := some (lastErrStr res.rc res.output),
                    updatedAt := now, availableAt := 0,
                    workerPid := none } := by
  have hgja : get_job_attempts s j.id = j.attempts := by
    unfold get_job_attempts
    rw [hfind]
  rw [resolveJob_eq, if_neg hrc, if_pos hmax]
  unfold move_to_dead
  rw [hgja]
  unfold update_job_result
  rw [find?_map_update s.jobs j.id
    (fun x => { x with state := JState.dead, attempts := j.attempts,
                       lastError := some (lastErrStr res.rc res.output),
                       updatedAt := now, availableAt := 0,
                       workerPid := none })
    (fun x => rfl), hfind]
  rfl

/-- Witness for the amended C1 at the Scenario A fixtures. -/
theorem worker_exhausted_to_dead_witness :
    (resolveJob storeA2 2 jobA2 ⟨1, ""⟩ 102).jobs.find?
        (fun k => k.id == jobA2.id) =
      some { jobA2 with state := JState.dead,
                        lastError := some (lastErrStr 1 ""),
                        updatedAt := 102, availableAt := 0,
                        workerPid := none } :=
  worker_exhausted_to_dead storeA2 2 jobA2 ⟨1, ""⟩ 102 (by decide)
    (by decide) (by decide)

end QueueCTL

namespace QueueCTL

/-! ### Well-formedness machinery for the step relation -/

theorem map_update_ids (l : List Job) (i : Nat) (g : Job → Job)
    (hg : ∀ x, (g x).id = x.id) :
    (l.map (fun x => if x.id = i then g x else x)).map Job.id =
      l.map Job.id := by
  induction l with
  | nil => rfl
  | cons x xs ih =>
    by_cases h : x.id = i <;> simp [h, hg, ih]

theorem WF_of_ids_eq (s0 s1 : Store)
    (hids : s1.jobs.map Job.id = s0.jobs.map Job.id)
    (hnext : s1.nextId = s0.nextId) (hwf : WF s0) : WF s1 := by
  obtain ⟨hp, hlt⟩ := hwf
  constructor
  · have h1 : (s0.jobs.map Job.id).Pairwise (· < ·) := List.pairwise_map.mpr hp
    have h2 : (s1.jobs.map Job.id).Pairwise (· < ·) := by rw [hids]; exact h1
    exact List.pairwise_map.mp h2
  · intro j hj
    have hmm : j.id ∈ s1.jobs.map Job.id := List.mem_map_of_mem _ hj
    rw [hids] at hmm
    obtain ⟨k, hk, hkid⟩ := List.mem_map.mp hmm
    rw [hnext, ← hkid]
    exact hlt k hk

theorem WF_update (s : Store) (jobId : Nat) (st : JState) (a : Int)
    (err : Option String) (now av : Int) (hwf : WF s) :
    WF (update_job_result s jobId st a err now av) := by
  apply WF_of_ids_eq s
  · show (s.jobs.map (fun x => if x.id = jobId then
        { x with state := st, attempts := a, lastError := err,
                 updatedAt := now, availableAt := av,
                 workerPid := none } else x)).map Job.id = s.jobs.map Job.id
    exact map_update_ids s.jobs jobId _ (fun x => rfl)
  · rfl
  · exact hwf

theorem WF_step {P : JobSpec → Prop} {Q : JState → Prop} (s s2 : Store)
    (hstep : StoreStep P Q s s2) (hwf : WF s) : WF s2 := by
  cases hstep with
  | add spec now s2x i hP hok =>
    obtain ⟨cmd, hcmd, hs2, hi⟩ := add_job_ok_shape _ _ _ _ _ hok
    subst hs2
    obtain ⟨hp, hlt⟩ := hwf
    constructor
    · rw [List.pairwise_append]
      refine ⟨hp, List.pairwise_singleton _ _, ?_⟩
      intro a ha b hb
      rw [List.mem_singleton] at hb
      subst hb
      exact hlt a ha
    · intro j hj
      rcases List.mem_append.mp hj with h | h
      · have := hlt j h
        show j.id < s.nextId + 1
        omega
      · rw [List.mem_singleton] at h
        subst h
        show s.nextId < s.nextId + 1
        omega
  | claim pid now =>
    cases hsel : selectOldest now s.jobs with
    | none =>
      have hc : (claim_next_job s pid now).1 = s := by
        unfold claim_next_job; rw [hsel]
      rw [hc]
      exact hwf
    | some row =>
      have hc : (claim_next_job s pid now).1 =
          { s with jobs := s.jobs.map (fun x =>
              if x.id = row.id then claimUpdate pid now x else x) } := by
        unfold claim_next_job; rw [hsel]
      rw [hc]
      apply WF_of_ids_eq s
      · exact map_update_ids s.jobs row.id (claimUpdate pid now) (fun x => rfl)
      · rfl
      · exact hwf
  | upd jobId st a err now av hQ =>
    exact WF_update s jobId st a err now av hwf
  | dead jobId err now =>
    exact WF_update s jobId JState.dead (get_job_attempts s jobId) err now 0 hwf
  | resolve base jr res now hfind hstate =>
    rw [resolveJob_eq]
    by_cases hrc : res.rc = 0
    · rw [if_pos hrc]
      exact WF_update s jr.id JState.completed jr.attempts none now 0 hwf
    · rw [if_neg hrc]
      by_cases hgt : jr.attempts + 1 > jr.maxRetries
      · rw [if_pos hgt]
        exact WF_update s jr.id JState.dead (get_job_attempts s jr.id)
          (some (lastErrStr res.rc res.output)) now 0 hwf
      · rw [if_neg hgt]
        exact WF_update s jr.id JState.failed (jr.attempts + 1)
          (some (lastErrStr res.rc res.output)) now
          (now + (backoffDelay base (jr.attempts + 1).toNat : Int)) hwf
  | retry jobId now s2x hok =>
    obtain ⟨⟨r, hr, hrid, hrst⟩, hs2⟩ := retry_dead_job_ok_shape _ _ _ _ hok
    subst hs2
    apply WF_of_ids_eq s
    · exact map_update_ids s.jobs jobId (retryUpdate now) (fun x => rfl)
    · rfl
    · exact hwf

/-- `update_job_result` with a non-`processing` target state preserves
the owner-iff-processing invariant (it clears `worker_pid`). -/
theorem update_job_result_owner (s : Store) (jobId : Nat) (st : JState)
    (hst : st ≠ JState.processing) (a : Int) (err : Option String)
    (now av : Int) (hinv : OwnerInv s) :
    OwnerInv (update_job_result s jobId st a err now av) := by
  intro j2 hj2
  obtain ⟨x, hx, hcase⟩ := mem_update_cases s.jobs jobId _ j2 hj2
  rcases hcase with ⟨hxi, hgx⟩ | ⟨hxi, hxx⟩
  · rw [hgx]
    constructor
    · intro hpid; exact absurd rfl hpid
    · intro hstp; exact absurd hstp hst
  · rw [hxx]
    exact hinv x hx

theorem owner_inv_step (s s2 : Store) (hwf : WF s)
    (hstep : StoreStep (fun _ => True) NoProcessingTarget s s2)
    (hinv : OwnerInv s) : OwnerInv s2 := by
  cases hstep with
  | add spec now s2x i hP hok =>
    obtain ⟨cmd, hcmd, hs2, hi⟩ := add_job_ok_shape _ _ _ _ _ hok
    subst hs2
    intro j hj
    rcases List.mem_append.mp hj with h | h
    · exact hinv j h
    · rw [List.mem_singleton] at h
      subst h
      constructor
      · intro hpid; exact absurd rfl hpid
      · intro hst; exact JState.noConfusion hst
  | claim pid now =>
    cases hsel : selectOldest now s.jobs with
    | none =>
      have hc : (claim_next_job s pid now).1 = s := by
        unfold claim_next_job; rw [hsel]
      rw [hc]
      exact hinv
    | some row =>
      have hc : (claim_next_job s pid now).1 =
          { s with jobs := s.jobs.map (fun x =>
              if x.id = row.id then claimUpdate pid now x else x) } := by
        unfold claim_next_job; rw [hsel]
      rw [hc]
      intro j2 hj2
      obtain ⟨x, hx, hcase⟩ :=
        mem_update_cases s.jobs row.id (claimUpdate pid now) j2 hj2
      rcases hcase with ⟨hxi, hgx⟩ | ⟨hxi, hxx⟩
      · rw [hgx]
        constructor
        · intro _; rfl
        · intro _; exact fun hc2 => Option.noConfusion hc2
      · rw [hxx]
        exact hinv x hx
  | upd jobId st a err now av hQ =>
    exact update_job_result_owner s jobId st hQ a err now av hinv
  | dead jobId err now =>
    exact update_job_result_owner s jobId JState.dead (by decide)
      (get_job_attempts s jobId) err now 0 hinv
  | resolve base jr res now hfind hstate =>
    rw [resolveJob_eq]
    by_cases hrc : res.rc = 0
    · rw [if_pos hrc]
      exact update_job_result_owner s jr.id JState.completed (by decide)
        jr.attempts none now 0 hinv
    · rw [if_neg hrc]
      by_cases hgt : jr.attempts + 1 > jr.maxRetries
      · rw [if_pos hgt]
        exact update_job_result_owner s jr.id JState.dead (by decide)
          (get_job_attempts s jr.id) (some (lastErrStr res.rc res.output))
          now 0 hinv
      · rw [if_neg hgt]
        exact update_job_result_owner s jr.id JState.failed (by decide)
          (jr.attempts + 1) (some (lastErrStr res.rc res.output)) now
          (now + (backoffDelay base (jr.attempts + 1).toNat : Int)) hinv
  | retry jobId now s2x hok =>
    obtain ⟨⟨r, hr, hrid, hrst⟩, hs2⟩ := retry_dead_job_ok_shape _ _ _ _ hok
    subst hs2
    intro j2 hj2
    obtain ⟨x, hx, hcase⟩ :=
      mem_update_cases s.jobs jobId (retryUpdate now) j2 hj2
    rcases hcase with ⟨hxi, hgx⟩ | ⟨hxi, hxx⟩
    · have hxr : x = r := mem_id_unique s.jobs hwf.1 x r hx hr (by rw [hxi, hrid])
      have hxdead : x.state = JState.dead := by rw [hxr]; exact hrst
      have hpidnone : x.workerPid = none := by
        by_contra hne
        have hpr := (hinv x hx).mp hne
        rw [hxdead] at hpr
        exact JState.noConfusion hpr
      rw [hgx]
      constructor
      · intro hpid
        exact absurd hpidnone hpid
      · intro hstp
        exact JState.noConfusion hstp
    · rw [hxx]
      exact hinv x hx

end QueueCTL

namespace QueueCTL

/-- `update_job_result` with a non-negative written attempts value that
is at least the current attempts of the targeted row neither violates
non-negativity nor decreases any row's attempts. -/
theorem update_attempts_bound (s : Store) (jobId : Nat) (st : JState)
    (a : Int) (err : Option String) (now av : Int)
    (hp : s.jobs.Pairwise (fun x y => x.id < y.id))
    (hinv : ∀ j ∈ s.jobs, 0 ≤ j.attempts) (ha : 0 ≤ a)
    (hge : ∀ x ∈ s.jobs, x.id = jobId → x.attempts ≤ a) :
    (∀ j2 ∈ (update_job_result s jobId st a err now av).jobs,
      0 ≤ j2.attempts) ∧
    (∀ j2 ∈ (update_job_result s jobId st a err now av).jobs,
      ∀ j ∈ s.jobs, j.id = j2.id → ¬ j2.attempts < j.attempts) := by
  constructor
  · intro j2 hj2
    obtain ⟨x, hx, hcase⟩ := mem_update_cases s.jobs jobId _ j2 hj2
    rcases hcase with ⟨hxi, hgx⟩ | ⟨hxi, hxx⟩
    · rw [hgx]; exact ha
    · rw [hxx]; exact hinv x hx
  · intro j2 hj2 j hj hid
    obtain ⟨x, hx, hcase⟩ := mem_update_cases s.jobs jobId _ j2 hj2
    rcases hcase with ⟨hxi, hgx⟩ | ⟨hxi, hxx⟩
    · intro hlt
      rw [hgx] at hlt
      have h2 : a < j.attempts := hlt
      have hjx : j = x := mem_id_unique s.jobs hp j x hj hx
        (by rw [hid, hgx])
      rw [hjx] at h2
      have h3 := hge x hx hxi
      omega
    · intro hlt
      have hjx : j = x := mem_id_unique s.jobs hp j x hj hx
        (by rw [hid, hxx])
      rw [hxx, hjx] at hlt
      exact absurd hlt (lt_irrefl _)

/-- Per-step attempts facts: under non-negative submissions and no raw
`update_job_result`, one step preserves attempts non-negativity, and the
only step that decreases a row's attempts is the dead retry, which takes
a `dead` row to `pending` with attempts 0. -/
theorem attempts_step (s s2 : Store) (hwf : WF s)
    (hstep : StoreStep NonNegSubmission NoRawUpdate s s2)
    (hinv : ∀ j ∈ s.jobs, 0 ≤ j.attempts) :
    (∀ j ∈ s2.jobs, 0 ≤ j.attempts) ∧
    (∀ j2 ∈ s2.jobs, ∀ j ∈ s.jobs, j.id = j2.id → j2.attempts < j.attempts →
      j.state = JState.dead ∧ j2.state = JState.pending ∧
        j2.attempts = 0) := by
  cases hstep with
  | add spec now s2x i hP hok =>
    obtain ⟨cmd, hcmd, hs2, hi⟩ := add_job_ok_shape _ _ _ _ _ hok
    subst hs2
    constructor
    · intro j hj
      rcases List.mem_append.mp hj with h | h
      · exact hinv j h
      · rw [List.mem_singleton] at h
        rw [h]
        exact hP
    · intro j2 hj2 j hj hid hlt
      rcases List.mem_append.mp hj2 with h | h
      · have hjj := mem_id_unique s.jobs hwf.1 j j2 hj h hid
        rw [hjj] at hlt
        exact absurd hlt (lt_irrefl _)
      · rw [List.mem_singleton] at h
        have hjid := hwf.2 j hj
        rw [hid, h] at hjid
        have h2 : s.nextId < s.nextId := hjid
        exact absurd h2 (lt_irrefl _)
  | claim pid now =>
    cases hsel : selectOldest now s.jobs with
    | none =>
      have hc : (claim_next_job s pid now).1 = s := by
        unfold claim_next_job; rw [hsel]
      rw [hc]
      refine ⟨hinv, ?_⟩
      intro j2 hj2 j hj hid hlt
      have hjj := mem_id_unique s.jobs hwf.1 j j2 hj hj2 hid
      rw [hjj] at hlt
      exact absurd hlt (lt_irrefl _)
    | some row =>
      have hc : (claim_next_job s pid now).1 =
          { s with jobs := s.jobs.map (fun x =>
              if x.id = row.id then claimUpdate pid now x else x) } := by
        unfold claim_next_job; rw [hsel]
      rw [hc]
      constructor
      · intro j2 hj2
        obtain ⟨x, hx, hcase⟩ :=
          mem_update_cases s.jobs row.id (claimUpdate pid now) j2 hj2
        rcases hcase with ⟨hxi, hgx⟩ | ⟨hxi, hxx⟩
        · rw [hgx]; exact hinv x hx
        · rw [hxx]; exact hinv x hx
      · intro j2 hj2 j hj hid hlt
        obtain ⟨x, hx, hcase⟩ :=
          mem_update_cases s.jobs row.id (claimUpdate pid now) j2 hj2
        rcases hcase with ⟨hxi, hgx⟩ | ⟨hxi, hxx⟩
        · have hjx : j = x := mem_id_unique s.jobs hwf.1 j x hj hx
            (by rw [hid, hgx]; rfl)
          rw [hgx] at hlt
          have h2 : x.attempts < j.attempts := hlt
          rw [hjx] at h2
          exact absurd h2 (lt_irrefl _)
        · have hjx : j = x := mem_id_unique s.jobs hwf.1 j x hj hx
            (by rw [hid, hxx])
          rw [hxx, hjx] at hlt
          exact absurd hlt (lt_irrefl _)
  | upd jobId st a err now av hQ =>
    exact hQ.elim
  | dead jobId err now =>
    have hb := update_attempts_bound s jobId JState.dead
      (get_job_attempts s jobId) err now 0 hwf.1 hinv
      (get_job_attempts_nonneg s jobId hinv)
      (fun x hx hxi => by
        rw [← hxi, get_job_attempts_eq s x hwf.1 hx])
    exact ⟨hb.1, fun j2 hj2 j hj hid hlt =>
      absurd hlt (hb.2 j2 hj2 j hj hid)⟩
  | resolve base jr res now hfind hstate =>
    have hjr : jr ∈ s.jobs := List.mem_of_find?_eq_some hfind
    have hgejr : ∀ x ∈ s.jobs, x.id = jr.id → x = jr := fun x hx hxi =>
      mem_id_unique s.jobs hwf.1 x jr hx hjr hxi
    rw [resolveJob_eq]
    by_cases hrc : res.rc = 0
    · rw [if_pos hrc]
      have hb := update_attempts_bound s jr.id JState.completed jr.attempts
        none now 0 hwf.1 hinv (hinv jr hjr)
        (fun x hx hxi => by rw [hgejr x hx hxi])
      exact ⟨hb.1, fun j2 hj2 j hj hid hlt =>
        absurd hlt (hb.2 j2 hj2 j hj hid)⟩
    · rw [if_neg hrc]
      by_cases hgt : jr.attempts + 1 > jr.maxRetries
      · rw [if_pos hgt]
        have hb := update_attempts_bound s jr.id JState.dead
          (get_job_attempts s jr.id) (some (lastErrStr res.rc res.output))
          now 0 hwf.1 hinv (get_job_attempts_nonneg s jr.id hinv)
          (fun x hx hxi => by
            rw [← hxi, get_job_attempts_eq s x hwf.1 hx])
        exact ⟨hb.1, fun j2 hj2 j hj hid hlt =>
          absurd hlt (hb.2 j2 hj2 j hj hid)⟩
      · rw [if_neg hgt]
        have hb := update_attempts_bound s jr.id JState.failed
          (jr.attempts + 1) (some (lastErrStr res.rc res.output)) now
          (now + (backoffDelay base (jr.attempts + 1).toNat : Int))
          hwf.1 hinv (by have := hinv jr hjr; omega)
          (fun x hx hxi => by rw [hgejr x hx hxi]; omega)
        exact ⟨hb.1, fun j2 hj2 j hj hid hlt =>
          absurd hlt (hb.2 j2 hj2 j hj hid)⟩
  | retry jobId now s2x hok =>
    obtain ⟨⟨r, hr, hrid, hrst⟩, hs2⟩ := retry_dead_job_ok_shape _ _ _ _ hok
    subst hs2
    constructor
    · intro j2 hj2
      obtain ⟨x, hx, hcase⟩ :=
        mem_update_cases s.jobs jobId (retryUpdate now) j2 hj2
      rcases hcase with ⟨hxi, hgx⟩ | ⟨hxi, hxx⟩
      · rw [hgx]; exact le_refl 0
      · rw [hxx]; exact hinv x hx
    · intro j2 hj2 j hj hid hlt
      obtain ⟨x, hx, hcase⟩ :=
        mem_update_cases s.jobs jobId (retryUpdate now) j2 hj2
      rcases hcase with ⟨hxi, hgx⟩ | ⟨hxi, hxx⟩
      · have hjx : j = x := mem_id_unique s.jobs hwf.1 j x hj hx
          (by rw [hid, hgx]; rfl)
        have hxr : x = r := mem_id_unique s.jobs hwf.1 x r hx hr
          (by rw [hxi, hrid])
        refine ⟨?_, ?_, ?_⟩
        · rw [hjx, hxr]; exact hrst
        · rw [hgx]; rfl
        · rw [hgx]; rfl
      · have hjx : j = x := mem_id_unique s.jobs hwf.1 j x hj hx
          (by rw [hid, hxx])
        rw [hxx, hjx] at hlt
        exact absurd hlt (lt_irrefl _)

end QueueCTL

namespace QueueCTL

/-- Counterexample to claim C8: the store list includes
`updateJobResult` among the public operations, and calling it with
target state `'processing'` (its state argument is unrestricted in the
code) clears `worker_pid` while setting `state='processing'` — a state
reachable through the public operations in which a processing job has a
null owner. -/
theorem owner_iff_processing_cex :
    Relation.ReflTransGen RawStep initStore storeP ∧ ¬ OwnerInv storeP := by
  constructor
  · have h1 : RawStep initStore storeA1 :=
      StoreStep.add initStore specA 100 storeA1 1 trivial (by decide)
    have h2 : RawStep storeA1 storeA2 := by
      rw [(by decide : storeA2 = (claim_next_job storeA1 7 101).1)]
      exact StoreStep.claim storeA1 7 101
    have h3 : RawStep storeA2 storeP :=
      StoreStep.upd storeA2 1 JState.processing 0 none 102 0 trivial
    exact Relation.ReflTransGen.tail
      (Relation.ReflTransGen.tail (Relation.ReflTransGen.single h1) h2) h3
  · unfold OwnerInv
    decide

/-- Claim C8 (amended): in every store state reachable from the fresh
store by the public operations with `update_job_result` restricted to
non-`processing` target states — which covers every call site in the
repository: the worker writes `completed`/`failed`, `move_to_dead`
writes `dead` — a job has a non-null `worker_pid` exactly when its state
is `processing`: the claim sets both together and every resolution path
clears the owner when leaving `processing`. -/
theorem owner_iff_processing_reachable (s2 : Store)
    (h : Relation.ReflTransGen (StoreStep (fun _ => True) NoProcessingTarget)
      initStore s2) : OwnerInv s2 := by
  have key : WF s2 ∧ OwnerInv s2 := by
    induction h with
    | refl =>
      refine ⟨⟨List.Pairwise.nil, ?_⟩, ?_⟩
      · intro j hj; cases hj
      · intro j hj; cases hj
    | tail hab hbc ih =>
      exact ⟨WF_step _ _ hbc ih.1, owner_inv_step _ _ ih.1 hbc ih.2⟩
  exact key.2

/-- Witness for the amended C8: the store reached by Scenario A's add
and claim satisfies the owner invariant. -/
theorem owner_iff_processing_witness : OwnerInv storeA2 :=
  owner_iff_processing_reachable storeA2
    (Relation.ReflTransGen.tail
      (Relation.ReflTransGen.single
        (StoreStep.add initStore specA 100 storeA1 1 trivial (by decide)))
      (by rw [(by decide : storeA2 = (claim_next_job storeA1 7 101).1)]
          exact StoreStep.claim storeA1 7 101))

/-- Counterexample to claim C9: `add_job` performs no validation of the
caller-supplied `attempts` value, so a submission with `attempts = -1`
inserts a row whose attempts is negative. -/
theorem attempts_nonneg_cex :
    add_job initStore specNeg 100 = Except.ok (storeNeg, 1) ∧
    jobNeg ∈ storeNeg.jobs ∧ jobNeg.attempts < 0 :=
  ⟨by decide, by decide, by decide⟩

/-- Claim C9 (amended): provided every submission carries a
non-negative `attempts` value (the in-repo callers never supply one, so
it defaults to 0) and rows are mutated only through the engine paths
(claim, worker write-back, `move_to_dead`, dead retry), `attempts ≥ 0`
holds for every job in every reachable store state, and a step decreases
a row's attempts only as the dead retry's `dead → pending` reset to 0. -/
theorem attempts_nonneg_spec :
    (∀ s2 : Store,
      Relation.ReflTransGen (StoreStep NonNegSubmission NoRawUpdate)
        initStore s2 → ∀ j ∈ s2.jobs, 0 ≤ j.attempts) ∧
    (∀ s s2 : Store, WF s → (∀ j ∈ s.jobs, 0 ≤ j.attempts) →
      StoreStep NonNegSubmission NoRawUpdate s s2 →
      ∀ j2 ∈ s2.jobs, ∀ j ∈ s.jobs, j.id = j2.id → j2.attempts < j.attempts →
        j.state = JState.dead ∧ j2.state = JState.pending ∧
          j2.attempts = 0) := by
  constructor
  · intro s2 h
    have key : WF s2 ∧ (∀ j ∈ s2.jobs, 0 ≤ j.attempts) := by
      induction h with
      | refl =>
        refine ⟨⟨List.Pairwise.nil, ?_⟩, ?_⟩
        · intro j hj; cases hj
        · intro j hj; cases hj
      | tail hab hbc ih =>
        exact ⟨WF_step _ _ hbc ih.1, (attempts_step _ _ ih.1 hbc ih.2).1⟩
    exact key.2
  · intro s s2 hwf hinv hstep
    exact (attempts_step s s2 hwf hstep hinv).2

/-- Witness for the amended C9: retrying the dead job of `storeD`
decreases its attempts from 1 to 0, and that step is exactly the
`dead → pending` reset. -/
theorem attempts_nonneg_spec_witness :
    jobD.state = JState.dead ∧
    (retryUpdate 60 jobD).state = JState.pending ∧
    (retryUpdate 60 jobD).attempts = 0 :=
  attempts_nonneg_spec.2 storeD storeD2
    ⟨List.pairwise_singleton _ _, by decide⟩ (by decide)
    (StoreStep.retry storeD 1 60 storeD2 (by decide))
    (retryUpdate 60 jobD) (by decide) jobD (by decide) rfl (by decide)

end QueueCTL
